import Mathlib

/-!
# ClipStream — verification of the command-synthesis and execution-pipeline core

A shallow embedding, in Lean 4, of the core logic of the ClipStream browser
video-clipping tool: time-string parsing and validation, the bulk segment
parser, the fade-merge on bulk re-parse, the two ffmpeg argument builders
(simple seek path and general filter-graph path), the raw-command validator,
the resource-loader progress state machine, and the processing supervisor with
its audio-retry and cleanup behaviour.

JavaScript strings are modelled as `List Char` (wrapped in `String`);
JavaScript numbers that are known integers are modelled as `Nat`/`Int`, and the
(float) fade duration as `ℚ`.  The two anchored regular expressions of the
source are embedded by their column-wise structural equivalents, and the one
unanchored search regex of the bulk parser is embedded by an explicit
backtracking matcher with the same alternative ordering (greedy quantifiers,
leftmost match) as the JavaScript engine.
-/

namespace ClipStream

/-! ## Character and string helpers -/

/-- Whitespace recognised by the model of `String.prototype.trim`. -/
def isWs (c : Char) : Bool :=
  c = ' ' || c = '\t' || c = '\n' || c = '\r'

/-- Model of JavaScript `s.trim()` on character lists. -/
def jsTrim (cs : List Char) : List Char :=
  ((cs.dropWhile isWs).reverse.dropWhile isWs).reverse

/-- Model of JavaScript `s.split(":")`: split on every colon, keeping empty
pieces. -/
def splitCols : List Char → List (List Char)
  | [] => [[]]
  | c :: cs =>
    if c = ':' then [] :: splitCols cs
    else
      match splitCols cs with
      | [] => [[c]]
      | t :: ts => (c :: t) :: ts

/-- Numeric value of a digit string (the value JavaScript `Number` gives a
string of decimal digits). -/
def natVal (cs : List Char) : Nat :=
  cs.foldl (fun n c => n * 10 + (c.toNat - 48)) 0

theorem splitCols_ne_nil (cs : List Char) : splitCols cs ≠ [] := by
  cases cs with
  | nil => simp [splitCols]
  | cons c cs =>
    by_cases h : c = ':'
    · simp [splitCols, h]
    · simp only [splitCols, h, if_false]
      cases splitCols cs <;> simp

theorem splitCols_no_colon (xs : List Char) (h : ∀ c ∈ xs, c ≠ ':') :
    splitCols xs = [xs] := by
  induction xs with
  | nil => rfl
  | cons c cs ih =>
    have hc : c ≠ ':' := h c (by simp)
    have ihr := ih (fun d hd => h d (by simp [hd]))
    simp [splitCols, hc, ihr]

theorem splitCols_append (xs ys : List Char) (h : ∀ c ∈ xs, c ≠ ':') :
    splitCols (xs ++ ':' :: ys) = xs :: splitCols ys := by
  induction xs with
  | nil => simp [splitCols]
  | cons c cs ih =>
    have hc : c ≠ ':' := h c (by simp)
    have ihr := ih (fun d hd => h d (by simp [hd]))
    simp [splitCols, hc, ihr]

theorem dropWhile_eq_self_of_none {p : Char → Bool} (cs : List Char)
    (h : ∀ c ∈ cs, p c = false) : cs.dropWhile p = cs := by
  cases cs with
  | nil => rfl
  | cons c cs => simp [List.dropWhile, h c (by simp)]

theorem jsTrim_eq_self (cs : List Char) (h : ∀ c ∈ cs, isWs c = false) :
    jsTrim cs = cs := by
  unfold jsTrim
  rw [dropWhile_eq_self_of_none cs h,
    dropWhile_eq_self_of_none cs.reverse (fun c hc => h c (by simpa using hc)),
    List.reverse_reverse]

theorem not_ws_of_digit (c : Char) (h : c.isDigit = true) : isWs c = false := by
  by_contra hw
  have hw' : isWs c = true := by revert hw; cases isWs c <;> simp
  simp only [isWs, Bool.or_eq_true, decide_eq_true_eq] at hw'
  rcases hw' with ((rfl | rfl) | rfl) | rfl <;> simp [Char.isDigit] at h

theorem ne_colon_of_digit (c : Char) (h : c.isDigit = true) : c ≠ ':' := by
  rintro rfl
  simp [Char.isDigit] at h

/-! ## Time Notation (src/utils/timeUtils.ts)

`isValidTimeString` tests the anchored regex
`^\d{1,3}:\d{2}(:\d{2})?$|^\d+$` on the trimmed string, rules out `NaN` and
negative components (vacuous for digit strings), and then checks the
minute/second components against 60.  The regex is embedded by its structural
equivalent on the colon-separated columns: either a single non-empty digit
column, or two/three all-digit columns whose leading column has one to three
digits and whose remaining columns have exactly two digits. -/

/-- The shape test of the regex `^\d{1,3}:\d{2}(:\d{2})?$|^\d+$`, expressed on
the colon-split columns of the (trimmed) string. -/
def timeShape : List (List Char) → Bool
  | [d] => !d.isEmpty && d.all Char.isDigit
  | [h, m] =>
    decide (1 ≤ h.length) && decide (h.length ≤ 3) && h.all Char.isDigit &&
      decide (m.length = 2) && m.all Char.isDigit
  | [h, m, s] =>
    decide (1 ≤ h.length) && decide (h.length ≤ 3) && h.all Char.isDigit &&
      decide (m.length = 2) && m.all Char.isDigit &&
      decide (s.length = 2) && s.all Char.isDigit
  | _ => false

/-- `isValidTimeString` from `src/utils/timeUtils.ts`: regex shape test, then
minutes/seconds range checks (`parts[1] < 60`, `parts[2] < 60`). -/
def isValidTimeString (time : String) : Bool :=
  let cols := splitCols (jsTrim time.data)
  if timeShape cols then
    match cols with
    | [_, m, s] => decide (natVal m < 60) && decide (natVal s < 60)
    | [_, s] => decide (natVal s < 60)
    | _ => true
  else false

/-- `timeToSeconds` from `src/utils/timeUtils.ts`: returns `0` unless the
(trimmed) string is valid, else combines the components positionally. -/
def timeToSeconds (time : String) : Nat :=
  if isValidTimeString time then
    match splitCols (jsTrim time.data) with
    | [h, m, s] => natVal h * 3600 + natVal m * 60 + natVal s
    | [m, s] => natVal m * 60 + natVal s
    | [x] => natVal x
    | _ => 0
  else 0

/-! ## The processor-local `timeToSeconds`
(src/hooks/useFFmpegProcessor.ts, lines 15–23)

This variant has no validity guard: it splits on `:` and maps JavaScript
`Number` over the parts.  `Number` is modelled on the inputs this development
uses it on: the empty string gives `0`, a pure digit string gives its value,
and anything else gives `NaN` (modelled as `none`). -/

/-- Restricted model of JavaScript `Number(s)`: `none` models `NaN`. -/
def jsNum (cs : List Char) : Option ℚ :=
  if cs.isEmpty then some 0
  else if cs.all Char.isDigit then some (natVal cs)
  else none

/-- The unguarded `timeToSeconds` local to `useFFmpegProcessor.ts`.  A `none`
result models a `NaN` return value. -/
def hookTimeToSeconds (time : String) : Option ℚ :=
  match (splitCols time.data).map jsNum with
  | [a, b, c] =>
    match a, b, c with
    | some x, some y, some z => some (x * 3600 + y * 60 + z)
    | _, _, _ => none
  | [a, b] =>
    match a, b with
    | some x, some y => some (x * 60 + y)
    | _, _ => none
  | a :: _ => some ((a.getD 0))
  | [] => some 0

/-! ## Theorems for claims C3 and C7 -/

theorem digits_all_ne_colon (xs : List Char) (h : xs.all Char.isDigit = true) :
    ∀ c ∈ xs, c ≠ ':' := by
  intro c hc
  exact ne_colon_of_digit c (by simpa using (List.all_eq_true.mp h c hc))

theorem hms_trim (hh mm ss : List Char) (hd : hh.all Char.isDigit = true)
    (md : mm.all Char.isDigit = true) (sd : ss.all Char.isDigit = true) :
    jsTrim (hh ++ ':' :: (mm ++ ':' :: ss)) = hh ++ ':' :: (mm ++ ':' :: ss) := by
  apply jsTrim_eq_self
  intro c hc
  simp only [List.mem_append, List.mem_cons] at hc
  rcases hc with h1 | rfl | h2 | rfl | h3
  · exact not_ws_of_digit c (by simpa using (List.all_eq_true.mp hd c h1))
  · rfl
  · exact not_ws_of_digit c (by simpa using (List.all_eq_true.mp md c h2))
  · rfl
  · exact not_ws_of_digit c (by simpa using (List.all_eq_true.mp sd c h3))

theorem hms_cols (hh mm ss : List Char) (hd : hh.all Char.isDigit = true)
    (md : mm.all Char.isDigit = true) (sd : ss.all Char.isDigit = true) :
    splitCols (jsTrim (hh ++ ':' :: (mm ++ ':' :: ss))) = [hh, mm, ss] := by
  rw [hms_trim hh mm ss hd md sd,
    splitCols_append _ _ (digits_all_ne_colon hh hd),
    splitCols_append _ _ (digits_all_ne_colon mm md),
    splitCols_no_colon _ (digits_all_ne_colon ss sd)]

/-- C3 (counterexample).  The claim asserts that `isValidTime` accepts every
`H:MM:SS` string with in-range minutes and seconds "regardless of how many
digits the hour component has".  The source regex caps the leading component
at three digits: `"1000:00:00"` (minutes and seconds both in range) is
rejected, while the three-digit `"999:59:59"` is still accepted. -/
theorem validator_hour_bounded :
    isValidTimeString "1000:00:00" = false ∧
      isValidTimeString "999:59:59" = true := by
  constructor <;> decide

/-- C3 (amended).  `isValidTimeString` accepts `H:MM:SS` for any all-digit
hour component of one to three digits with minutes and seconds below 60, and
`timeToSeconds` combines the components as `h*3600 + m*60 + s`; `"1:75:00"`
and `"12:61"` are rejected (components ≥ 60), and `"90:00:00"` is accepted and
parses to `324000` seconds. -/
theorem validator_ranges :
    (∀ hh mm ss : List Char,
      hh.isEmpty = false → hh.length ≤ 3 → hh.all Char.isDigit = true →
      mm.length = 2 → mm.all Char.isDigit = true → natVal mm < 60 →
      ss.length = 2 → ss.all Char.isDigit = true → natVal ss < 60 →
      isValidTimeString ⟨hh ++ ':' :: (mm ++ ':' :: ss)⟩ = true ∧
        timeToSeconds ⟨hh ++ ':' :: (mm ++ ':' :: ss)⟩ =
          natVal hh * 3600 + natVal mm * 60 + natVal ss) ∧
    isValidTimeString "1:75:00" = false ∧
    isValidTimeString "12:61" = false ∧
    isValidTimeString "90:00:00" = true ∧
    timeToSeconds "90:00:00" = 324000 := by
  refine ⟨?_, by decide, by decide, by decide, by decide⟩
  intro hh mm ss hne hlen hd mlen md mlt slen sd slt
  have hcols : splitCols (jsTrim (String.mk (hh ++ ':' :: (mm ++ ':' :: ss))).data)
      = [hh, mm, ss] := hms_cols hh mm ss hd md sd
  have hshape : timeShape [hh, mm, ss] = true := by
    simp only [timeShape, Bool.and_eq_true, decide_eq_true_eq]
    refine ⟨⟨⟨⟨⟨⟨?_, hlen⟩, hd⟩, mlen⟩, md⟩, slen⟩, sd⟩
    cases hh with
    | nil => simp at hne
    | cons a t => simp
  have hvalid : isValidTimeString ⟨hh ++ ':' :: (mm ++ ':' :: ss)⟩ = true := by
    simp only [isValidTimeString, hcols, hshape, if_true]
    simp [mlt, slt]
  refine ⟨hvalid, ?_⟩
  simp only [timeToSeconds, hvalid, if_true, hcols]

/-- C3 (witness for `validator_ranges`): instantiation at `"123:45:06"`. -/
theorem validator_ranges_witness :
    isValidTimeString ⟨['1', '2', '3'] ++ ':' :: (['4', '5'] ++ ':' :: ['0', '6'])⟩ = true ∧
      timeToSeconds ⟨['1', '2', '3'] ++ ':' :: (['4', '5'] ++ ':' :: ['0', '6'])⟩ =
        natVal ['1', '2', '3'] * 3600 + natVal ['4', '5'] * 60 + natVal ['0', '6'] :=
  validator_ranges.1 ['1', '2', '3'] ['4', '5'] ['0', '6']
    (by decide) (by decide) (by decide) (by decide) (by decide) (by decide)
    (by decide) (by decide) (by decide)

/-- C7 (counterexample).  The claim covers the processor-local
`timeToSeconds` (useFFmpegProcessor.ts:15–23), which has no validity guard:
on the out-of-range string `"12:61"` it returns `12*60 + 61 = 781`, not `0`. -/
theorem hook_parse_nonzero_invalid :
    isValidTimeString "12:61" = false ∧
      hookTimeToSeconds "12:61" = some 781 ∧ (781 : ℚ) ≠ 0 := by
  refine ⟨by decide, ?_, by norm_num⟩
  have h : (splitCols ("12:61").data).map jsNum = [some 12, some 61] := by decide
  rw [hookTimeToSeconds, h]
  norm_num

/-- C7 (amended).  The Time Notation `timeToSeconds` (the guarded variant in
`timeUtils.ts`) returns `0` on every string that fails `isValidTimeString`,
with no other error channel; the processor-local unguarded variant does not
have this property (it returns `781` on `"12:61"`). -/
theorem parse_invalid_zero :
    (∀ s : String, isValidTimeString s = false → timeToSeconds s = 0) ∧
      timeToSeconds "12:61" = 0 ∧ timeToSeconds "ab:cd" = 0 ∧
      hookTimeToSeconds "12:61" = some 781 := by
  refine ⟨?_, by decide, by decide, ?_⟩
  · intro s hs
    simp [timeToSeconds, hs]
  · have h : (splitCols ("12:61").data).map jsNum = [some 12, some 61] := by decide
    rw [hookTimeToSeconds, h]
    norm_num

/-- C7 (witness for `parse_invalid_zero`): instantiation at `"90:61"`. -/
theorem parse_invalid_zero_witness : timeToSeconds "90:61" = 0 :=
  parse_invalid_zero.1 "90:61" (by decide)

/-! ## Segment model and bulk parser (src/utils/parseTimeSegments.ts)

`parseTimeSegments` splits the pasted text on runs of newlines, commas and
semicolons, trims and drops empty pieces, and searches each remaining line
with the unanchored regex
`(\d{1,2}:\d{2}(?::\d{2})?)\s*[-–—]\s*(\d{1,2}:\d{2}(?::\d{2})?)`.
The JavaScript search semantics — leftmost starting position, greedy
quantifiers tried longest-first, the optional `(?::\d{2})?` tried
present-first — are embedded by an explicit ordered-alternatives matcher.
The `\s*` runs need no backtracking because neither a dash nor a digit is
whitespace.  Fresh ids (`generateId`, two random base-36 draws) are modelled
by an id supply `ids : Nat → String` consumed in push order. -/

/-- A user time segment (`TimeSegment` in src/types/clip.ts).  The source
field `end` is a Lean keyword and is named `stop` here. -/
structure TimeSegment where
  id : String
  start : String
  stop : String
  fadeIn : Bool
  fadeOut : Bool
deriving DecidableEq, Inhabited

/-- Delimiters of the line-splitting regex `[\n,;]+`. -/
def isDelim (c : Char) : Bool :=
  c = '\n' || c = ',' || c = ';'

/-- Worker for the line splitter; the flag records whether a delimiter run is
currently being absorbed. -/
def splitDelimsAux : Bool → List Char → List (List Char)
  | _, [] => [[]]
  | skip, c :: cs =>
    if isDelim c then
      if skip then splitDelimsAux true cs
      else [] :: splitDelimsAux true cs
    else
      match splitDelimsAux false cs with
      | [] => [[c]]
      | t :: ts => (c :: t) :: ts

/-- Model of JavaScript `input.split(/[\n,;]+/)`: a run of delimiters acts as
one separator, and leading/trailing runs produce empty pieces. -/
def splitDelims (cs : List Char) : List (List Char) :=
  splitDelimsAux false cs

/-- The dash class `[-–—]` (hyphen, en dash, em dash). -/
def isDash (c : Char) : Bool :=
  c = '-' || c = '–' || c = '—'

/-- Alternatives for the leading `\d{1,2}` of a time atom, in the engine's
greedy order (two digits before one). -/
def leadAlts : List Char → List (List Char × List Char)
  | [] => []
  | [a] => if a.isDigit then [([a], [])] else []
  | a :: b :: rest =>
    if a.isDigit then
      if b.isDigit then [([a, b], rest), ([a], b :: rest)]
      else [([a], b :: rest)]
    else []

/-- Continuation of a time atom after its leading digits: the mandatory
`:\d{2}` and the optional `(?::\d{2})?`, present-first. -/
def contTime (ld r1 : List Char) : List (List Char × List Char) :=
  match r1 with
  | ':' :: c :: d :: r2 =>
    if c.isDigit && d.isDigit then
      match r2 with
      | ':' :: e :: f :: r3 =>
        if e.isDigit && f.isDigit then
          [(ld ++ [':', c, d, ':', e, f], r3), (ld ++ [':', c, d], r2)]
        else [(ld ++ [':', c, d], r2)]
      | _ => [(ld ++ [':', c, d], r2)]
    else []
  | _ => []

/-- All matches of the time atom `\d{1,2}:\d{2}(?::\d{2})?` anchored at the
head of the input, in backtracking priority order. -/
def timeAlts (cs : List Char) : List (List Char × List Char) :=
  (leadAlts cs).flatMap fun p => contTime p.1 p.2

/-- Consume `\s*[-–—]\s*`; fails if no dash follows the whitespace. -/
def afterDash (r : List Char) : Option (List Char) :=
  match r.dropWhile isWs with
  | [] => none
  | d :: r2 => if isDash d then some (r2.dropWhile isWs) else none

/-- First (greedy) alternative of the second time atom; nothing follows it in
the regex, so no backtracking over it is needed. -/
def secondTok (r : List Char) : Option (List Char) :=
  match timeAlts r with
  | [] => none
  | q :: _ => some q.1

/-- Continuation after a candidate first atom: `\s*[-–—]\s*` then the second
atom; fails unless both succeed. -/
def pairCont (p : List Char × List Char) : Option (List Char × List Char) :=
  (afterDash p.2).bind fun r2 => (secondTok r2).map fun t2 => (p.1, t2)

/-- Match the full pair pattern anchored at the head of the input, trying the
first atom's alternatives in order. -/
def pairAt (cs : List Char) : Option (List Char × List Char) :=
  (timeAlts cs).findSome? pairCont

/-- Leftmost search of the pair pattern, one starting position at a time. -/
def searchPair : List Char → Option (List Char × List Char)
  | [] => none
  | c :: cs =>
    match pairAt (c :: cs) with
    | some p => some p
    | none => searchPair cs

/-- The per-line loop of `parseTimeSegments`: matched lines push a segment
with fresh id and both fade flags `false`; unmatched lines are dropped. -/
def parseLines (ids : Nat → String) : Nat → List (List Char) → List TimeSegment
  | _, [] => []
  | k, l :: ls =>
    match searchPair l with
    | some p => ⟨ids k, ⟨p.1⟩, ⟨p.2⟩, false, false⟩ :: parseLines ids (k + 1) ls
    | none => parseLines ids k ls

/-- `parseTimeSegments` from src/utils/parseTimeSegments.ts. -/
def parseTimeSegments (ids : Nat → String) (input : String) : List TimeSegment :=
  parseLines ids 0 (((splitDelims input.data).map jsTrim).filter (fun l => !l.isEmpty))

/-- The bounded time shape `\d{1,2}:\d{2}(:\d{2})?` (exact match): the only
shape a bulk-parsed segment time can have. -/
def boundedTime (s : String) : Bool :=
  match splitCols s.data with
  | [h, m] =>
    decide (1 ≤ h.length) && decide (h.length ≤ 2) && h.all Char.isDigit &&
      decide (m.length = 2) && m.all Char.isDigit
  | [h, m, sec] =>
    decide (1 ≤ h.length) && decide (h.length ≤ 2) && h.all Char.isDigit &&
      decide (m.length = 2) && m.all Char.isDigit &&
      decide (sec.length = 2) && sec.all Char.isDigit
  | _ => false

theorem leadAlts_shape (cs : List Char) (p : List Char × List Char)
    (hp : p ∈ leadAlts cs) :
    1 ≤ p.1.length ∧ p.1.length ≤ 2 ∧ p.1.all Char.isDigit = true := by
  unfold leadAlts at hp
  split at hp
  · simp at hp
  · rename_i a
    split at hp
    · rename_i ha
      simp only [List.mem_singleton] at hp
      subst hp
      simp [ha]
    · simp at hp
  · rename_i a b rest
    split at hp
    · rename_i ha
      split at hp
      · rename_i hb
        simp only [List.mem_cons, List.not_mem_nil, or_false] at hp
        rcases hp with rfl | rfl
        · simp [ha, hb]
        · simp [ha]
      · simp only [List.mem_singleton] at hp
        subst hp
        simp [ha]
    · simp at hp

theorem boundedTime_two (h m : List Char) (h1 : 1 ≤ h.length)
    (h2 : h.length ≤ 2) (hd : h.all Char.isDigit = true)
    (m2 : m.length = 2) (md : m.all Char.isDigit = true) :
    boundedTime ⟨h ++ ':' :: m⟩ = true := by
  have : splitCols (h ++ ':' :: m) = [h, m] := by
    rw [splitCols_append _ _ (digits_all_ne_colon h hd),
      splitCols_no_colon _ (digits_all_ne_colon m md)]
  simp [boundedTime, this, h1, h2, hd, m2, md]

theorem boundedTime_three (h m s : List Char) (h1 : 1 ≤ h.length)
    (h2 : h.length ≤ 2) (hd : h.all Char.isDigit = true)
    (m2 : m.length = 2) (md : m.all Char.isDigit = true)
    (s2 : s.length = 2) (sd : s.all Char.isDigit = true) :
    boundedTime ⟨h ++ ':' :: (m ++ ':' :: s)⟩ = true := by
  have : splitCols (h ++ ':' :: (m ++ ':' :: s)) = [h, m, s] := by
    rw [splitCols_append _ _ (digits_all_ne_colon h hd),
      splitCols_append _ _ (digits_all_ne_colon m md),
      splitCols_no_colon _ (digits_all_ne_colon s sd)]
  simp [boundedTime, this, h1, h2, hd, m2, md, s2, sd]

theorem contTime_shape (ld r1 : List Char) (p : List Char × List Char)
    (hp : p ∈ contTime ld r1) :
    (∃ c d : Char, c.isDigit = true ∧ d.isDigit = true ∧
      p.1 = ld ++ [':', c, d]) ∨
    (∃ c d e f : Char, c.isDigit = true ∧ d.isDigit = true ∧
      e.isDigit = true ∧ f.isDigit = true ∧
      p.1 = ld ++ [':', c, d, ':', e, f]) := by
  unfold contTime at hp
  split at hp
  · rename_i c d r2
    split at hp
    · rename_i hcd
      simp only [Bool.and_eq_true] at hcd
      split at hp
      · rename_i e f r3
        split at hp
        · rename_i hef
          simp only [Bool.and_eq_true] at hef
          simp only [List.mem_cons, List.not_mem_nil, or_false] at hp
          rcases hp with rfl | rfl
          · right; exact ⟨c, d, e, f, hcd.1, hcd.2, hef.1, hef.2, rfl⟩
          · left; exact ⟨c, d, hcd.1, hcd.2, rfl⟩
        · simp only [List.mem_singleton] at hp
          subst hp
          left; exact ⟨c, d, hcd.1, hcd.2, rfl⟩
      · simp only [List.mem_singleton] at hp
        subst hp
        left; exact ⟨c, d, hcd.1, hcd.2, rfl⟩
    · simp at hp
  · simp at hp

theorem timeAlts_bounded (cs : List Char) (p : List Char × List Char)
    (hp : p ∈ timeAlts cs) : boundedTime ⟨p.1⟩ = true := by
  simp only [timeAlts, List.mem_flatMap] at hp
  obtain ⟨q, hq, hpq⟩ := hp
  obtain ⟨hq1, hq2, hq3⟩ := leadAlts_shape cs q hq
  rcases contTime_shape q.1 q.2 p hpq with
    ⟨c, d, hc, hd, hp1⟩ | ⟨c, d, e, f, hc, hd, he, hf, hp1⟩
  · rw [hp1, show q.1 ++ [':', c, d] = q.1 ++ ':' :: [c, d] from by simp]
    exact boundedTime_two q.1 [c, d] hq1 hq2 hq3 rfl (by simp [hc, hd])
  · rw [hp1, show q.1 ++ [':', c, d, ':', e, f]
        = q.1 ++ ':' :: ([c, d] ++ ':' :: [e, f]) from by simp]
    exact boundedTime_three q.1 [c, d] [e, f] hq1 hq2 hq3 rfl
      (by simp [hc, hd]) rfl (by simp [he, hf])

theorem secondTok_bounded (r : List Char) (t : List Char)
    (h : secondTok r = some t) : boundedTime ⟨t⟩ = true := by
  unfold secondTok at h
  split at h
  · exact absurd h (by simp)
  · rename_i q tail heq
    simp only [Option.some.injEq] at h
    subst h
    exact timeAlts_bounded r q (by rw [heq]; exact List.mem_cons_self q tail)

theorem pairCont_bounded (p : List Char × List Char) (t1 t2 : List Char)
    (h : pairCont p = some (t1, t2)) : t1 = p.1 ∧ boundedTime ⟨t2⟩ = true := by
  unfold pairCont at h
  rw [Option.bind_eq_some] at h
  obtain ⟨r2, _, hmap⟩ := h
  rw [Option.map_eq_some'] at hmap
  obtain ⟨t2', hsec, hpair⟩ := hmap
  simp only [Prod.mk.injEq] at hpair
  exact ⟨hpair.1.symm, hpair.2 ▸ secondTok_bounded r2 t2' hsec⟩

theorem pairAt_bounded (cs : List Char) (t1 t2 : List Char)
    (h : pairAt cs = some (t1, t2)) :
    boundedTime ⟨t1⟩ = true ∧ boundedTime ⟨t2⟩ = true := by
  obtain ⟨q, hq, hfq⟩ := List.exists_of_findSome?_eq_some h
  obtain ⟨h1, h2⟩ := pairCont_bounded q t1 t2 hfq
  exact ⟨h1 ▸ timeAlts_bounded cs q hq, h2⟩

theorem searchPair_bounded (l : List Char) (t1 t2 : List Char)
    (h : searchPair l = some (t1, t2)) :
    boundedTime ⟨t1⟩ = true ∧ boundedTime ⟨t2⟩ = true := by
  induction l with
  | nil => simp [searchPair] at h
  | cons c cs ih =>
    rw [searchPair] at h
    cases hp : pairAt (c :: cs) with
    | none => rw [hp] at h; exact ih h
    | some p =>
      rw [hp] at h
      cases h
      exact pairAt_bounded (c :: cs) t1 t2 (by rw [hp])

theorem parseLines_shape (ids : Nat → String) (k : Nat) (ls : List (List Char))
    (seg : TimeSegment) (hseg : seg ∈ parseLines ids k ls) :
    boundedTime seg.start = true ∧ boundedTime seg.stop = true ∧
      seg.fadeIn = false ∧ seg.fadeOut = false := by
  induction ls generalizing k with
  | nil => simp [parseLines] at hseg
  | cons l ls ih =>
    rw [parseLines] at hseg
    cases hsp : searchPair l with
    | none => rw [hsp] at hseg; exact ih _ hseg
    | some p =>
      rw [hsp] at hseg
      rcases List.mem_cons.mp hseg with rfl | hmem
      · obtain ⟨hb1, hb2⟩ := searchPair_bounded l p.1 p.2 (by rw [hsp])
        exact ⟨hb1, hb2, rfl, rfl⟩
      · exact ih _ hmem

/-- C10 (counterexample).  The claim asserts that a line containing a
three-digit-leading time, e.g. `"100:00-101:00"`, "is matched only on a
two-digit substring of the written time".  In fact this line produces no
segment at all: after the dash the regex must match `\d{1,2}:\d{2}` at
`"101:00"`, which is impossible, so no starting position admits a match and
the line is silently dropped. -/
theorem bulk_three_digit_line_dropped :
    parseTimeSegments (fun n => Nat.repr n) "100:00-101:00" = [] := by
  decide

/-- C10 (amended).  Every segment produced by the bulk parser has `start` and
`stop` of the bounded shape `\d{1,2}:\d{2}(:\d{2})?` and both fade flags
`false` (with a freshly drawn id from the supply), so a time with a
three-or-more-digit leading component can never enter via bulk paste even
though `isValidTimeString` accepts three-digit-leading times such as
`"100:00"`.  A line pairing a three-digit-leading time with a matchable time
is matched on a two-digit substring (`"100:00-59:00"` yields start
`"00:00"`), while a line whose times are all three-digit-leading
(`"100:00-101:00"`, see the counterexample) yields no segment. -/
theorem bulk_parser_bounded_shape :
    (∀ (ids : Nat → String) (input : String) (seg : TimeSegment),
      seg ∈ parseTimeSegments ids input →
      boundedTime seg.start = true ∧ boundedTime seg.stop = true ∧
        seg.fadeIn = false ∧ seg.fadeOut = false) ∧
    isValidTimeString "100:00" = true ∧
    boundedTime "100:00" = false ∧
    parseTimeSegments (fun n => Nat.repr n) "100:00-59:00" =
      [⟨"0", "00:00", "59:00", false, false⟩] ∧
    parseTimeSegments (fun n => Nat.repr n) "1:00-2:00\n3:00-4:30" =
      [⟨"0", "1:00", "2:00", false, false⟩, ⟨"1", "3:00", "4:30", false, false⟩] := by
  refine ⟨?_, by decide, by decide, by decide, by decide⟩
  intro ids input seg hseg
  exact parseLines_shape ids 0 _ seg hseg

/-- C10 (witness for `bulk_parser_bounded_shape`): the shape facts at the
first segment parsed from `"5:00-6:00"`. -/
theorem bulk_parser_bounded_shape_witness :
    boundedTime (TimeSegment.mk "0" "5:00" "6:00" false false).start = true ∧
      boundedTime (TimeSegment.mk "0" "5:00" "6:00" false false).stop = true ∧
      (TimeSegment.mk "0" "5:00" "6:00" false false).fadeIn = false ∧
      (TimeSegment.mk "0" "5:00" "6:00" false false).fadeOut = false :=
  bulk_parser_bounded_shape.1 (fun n => Nat.repr n) "5:00-6:00"
    (TimeSegment.mk "0" "5:00" "6:00" false false) (by decide)

/-! ## Fade-flag merge on bulk re-parse
(src/components/TimeSegmentEditor.tsx, `handleSave`) -/

/-- The merge of `handleSave`: each freshly parsed segment looks up the first
previous segment with the same `(start, stop)` string pair and inherits its
fade flags. -/
def mergeSegments (prev segNew : List TimeSegment) : List TimeSegment :=
  segNew.map fun ns =>
    match prev.find? (fun s => s.start == ns.start && s.stop == ns.stop) with
    | some ex => { ns with fadeIn := ex.fadeIn, fadeOut := ex.fadeOut }
    | none => ns

/-- `handleSave`: parse the edited text, then merge fade flags by value. -/
def handleSave (prev : List TimeSegment) (ids : Nat → String)
    (editText : String) : List TimeSegment :=
  mergeSegments prev (parseTimeSegments ids editText)

/-- C9.  After applying a bulk-parse result, a segment whose `(start,stop)`
pair occurs in the previous list carries that previous segment's fade flags
(merge by value — the first such match, independent of position), and a
segment with no such match has both flags `false`; concretely, re-parsing
text in which the line `"1:00-2:00"` is unchanged preserves its flags while
the new line gets default flags. -/
theorem merge_preserves_fades :
    (∀ (prev : List TimeSegment) (ids : Nat → String) (text : String)
        (seg : TimeSegment), seg ∈ handleSave prev ids text →
      (∃ p ∈ prev, p.start = seg.start ∧ p.stop = seg.stop ∧
        seg.fadeIn = p.fadeIn ∧ seg.fadeOut = p.fadeOut) ∨
      ((∀ p ∈ prev, ¬(p.start = seg.start ∧ p.stop = seg.stop)) ∧
        seg.fadeIn = false ∧ seg.fadeOut = false)) ∧
    handleSave [⟨"a", "1:00", "2:00", true, true⟩] (fun n => Nat.repr n)
        "1:00-2:00\n3:00-4:30" =
      [⟨"0", "1:00", "2:00", true, true⟩, ⟨"1", "3:00", "4:30", false, false⟩] := by
  refine ⟨?_, by decide⟩
  intro prev ids text seg hseg
  simp only [handleSave, mergeSegments, List.mem_map] at hseg
  obtain ⟨ns, hns, hmap⟩ := hseg
  cases hfind : prev.find? (fun s => s.start == ns.start && s.stop == ns.stop) with
  | some ex =>
    rw [hfind] at hmap
    left
    refine ⟨ex, List.mem_of_find?_eq_some hfind, ?_⟩
    have hpred := List.find?_some hfind
    simp only [Bool.and_eq_true, beq_iff_eq] at hpred
    rw [← hmap]
    exact ⟨hpred.1, hpred.2, rfl, rfl⟩
  | none =>
    rw [hfind] at hmap
    right
    have hflags := parseLines_shape ids 0 _ ns hns
    have hnone := List.find?_eq_none.mp hfind
    constructor
    · intro p hp hcontra
      have := hnone p hp
      rw [← hmap] at hcontra
      simp only [Bool.and_eq_true, beq_iff_eq] at this
      exact this ⟨hcontra.1, hcontra.2⟩
    · rw [← hmap]
      exact ⟨hflags.2.2.1, hflags.2.2.2⟩

/-- C9 (witness for `merge_preserves_fades`): instantiation at a one-element
previous list and the text `"1:00-2:00"`. -/
theorem merge_preserves_fades_witness :
    (∃ p ∈ [TimeSegment.mk "a" "1:00" "2:00" true false],
      p.start = (TimeSegment.mk "0" "1:00" "2:00" true false).start ∧
      p.stop = (TimeSegment.mk "0" "1:00" "2:00" true false).stop ∧
      (TimeSegment.mk "0" "1:00" "2:00" true false).fadeIn = p.fadeIn ∧
      (TimeSegment.mk "0" "1:00" "2:00" true false).fadeOut = p.fadeOut) ∨
    ((∀ p ∈ [TimeSegment.mk "a" "1:00" "2:00" true false],
        ¬(p.start = (TimeSegment.mk "0" "1:00" "2:00" true false).start ∧
          p.stop = (TimeSegment.mk "0" "1:00" "2:00" true false).stop)) ∧
      (TimeSegment.mk "0" "1:00" "2:00" true false).fadeIn = false ∧
      (TimeSegment.mk "0" "1:00" "2:00" true false).fadeOut = false) :=
  merge_preserves_fades.1 [TimeSegment.mk "a" "1:00" "2:00" true false]
    (fun n => Nat.repr n) "1:00-2:00"
    (TimeSegment.mk "0" "1:00" "2:00" true false) (by decide)

/-! ## Filter-graph synthesizer (src/hooks/useFFmpegProcessor.ts `process`,
part_001 lines 373–514)

The in-browser processor builds either a simplified seek argument list
(`buildSimpleArgs`) or a general filter-graph argument list
(`buildComplexArgs`).  Both are embedded here factored through the numeric
per-segment values the source computes (`startSec`, `endSec`, the fade
decisions), so that the semantic content of the rendered strings is available
for comparison.  The (float) fade duration is a `ℚ` rendered by `toString`;
it is never rendered on the fade-free paths the equivalence claim is about. -/

/-- The `ClipConfig` consumed by `process`: file handles are modelled by their
presence. -/
structure ClipConfig where
  videoFile : Bool
  audioFile : Bool
  segments : List TimeSegment
  globalFadeIn : Bool
  globalFadeOut : Bool
  fadeDuration : ℚ

/-- Decimal rendering of a natural (JavaScript `Number.prototype.toString`
on an integer). -/
def natStr (n : Nat) : String := Nat.repr n

/-- Decimal rendering of an integer. -/
def intStr (i : Int) : String := Int.repr i

/-- Rendering of the fade duration; its exact text is irrelevant to every
claim proved here (fade-free paths never render it). -/
def qStr (q : ℚ) : String := toString q

/-- The per-segment values computed at the head of the `forEach` body:
trim window and effective fade decisions. -/
structure SegPlan where
  startSec : Nat
  endSec : Nat
  fadeIn : Bool
  fadeOut : Bool
deriving DecidableEq, Inhabited

/-- `startSec`/`endSec`/`shouldFadeIn`/`shouldFadeOut` for segment `i`
(0-indexed), exactly as computed in the source loop. -/
def segPlan (cfg : ClipConfig) (i : Nat) (seg : TimeSegment) : SegPlan where
  startSec := timeToSeconds seg.start
  endSec := timeToSeconds seg.stop
  fadeIn := seg.fadeIn || (decide (i = 0) && cfg.globalFadeIn)
  fadeOut := seg.fadeOut || (decide (i = cfg.segments.length - 1) && cfg.globalFadeOut)

/-- The plans of all segments in order. -/
def complexPlans (cfg : ClipConfig) : List SegPlan :=
  cfg.segments.enum.map fun q => segPlan cfg q.1 q.2

/-- The video sub-chain for segment `i`: trim, timestamp reset, optional
fade-in/fade-out (fade-out start clamped at 0), labelled `[vi]`. -/
def vFilter (fd : ℚ) (i : Nat) (p : SegPlan) : String :=
  "[0:v]trim=start=" ++ natStr p.startSec ++ ":end=" ++ natStr p.endSec ++
    ",setpts=PTS-STARTPTS" ++
  (if p.fadeIn then ",fade=t=in:st=0:d=" ++ qStr fd else "") ++
  (if p.fadeOut then
    ",fade=t=out:st=" ++ qStr (max 0 (((p.endSec : ℚ) - (p.startSec : ℚ)) - fd)) ++
      ":d=" ++ qStr fd
   else "") ++
  "[v" ++ natStr i ++ "]"

/-- The audio sub-chain for segment `i`, from the overlay (`1:a`) or primary
(`0:a`) audio source. -/
def aFilter (ain : String) (fd : ℚ) (i : Nat) (p : SegPlan) : String :=
  "[" ++ ain ++ "]atrim=start=" ++ natStr p.startSec ++ ":end=" ++ natStr p.endSec ++
    ",asetpts=PTS-STARTPTS" ++
  (if p.fadeIn then ",afade=t=in:st=0:d=" ++ qStr fd else "") ++
  (if p.fadeOut then
    ",afade=t=out:st=" ++ qStr (max 0 (((p.endSec : ℚ) - (p.startSec : ℚ)) - fd)) ++
      ":d=" ++ qStr fd
   else "") ++
  "[a" ++ natStr i ++ "]"

/-- Concat input label pair (or lone video label) for segment `i`. -/
def concatInput (withAudio : Bool) (i : Nat) : String :=
  if withAudio then "[v" ++ natStr i ++ "][a" ++ natStr i ++ "]"
  else "[v" ++ natStr i ++ "]"

/-- The full `-filter_complex` value: all sub-chains then one concat node,
joined with `;`. -/
def filterComplexStr (cfg : ClipConfig) (withAudio : Bool) : String :=
  let n := cfg.segments.length
  let plans := complexPlans cfg
  let vfs := plans.enum.map fun q => vFilter cfg.fadeDuration q.1 q.2
  let cat := String.join ((List.range n).map (concatInput withAudio))
  if withAudio then
    let ain := if cfg.audioFile then "1:a" else "0:a"
    let afs := plans.enum.map fun q => aFilter ain cfg.fadeDuration q.1 q.2
    String.intercalate ";"
      (vfs ++ afs ++ [cat ++ "concat=n=" ++ natStr n ++ ":v=1:a=1[outv][outa]"])
  else
    String.intercalate ";"
      (vfs ++ [cat ++ "concat=n=" ++ natStr n ++ ":v=1:a=0[outv]"])

/-- The fixed encode parameters both builders push last. -/
def encodeTail : List String :=
  ["-preset", "fast", "-crf", "23", "-pix_fmt", "yuv420p", "-movflags",
    "+faststart", "-y", "output.mp4"]

/-- `buildComplexArgs` (part_001 lines 429–514). -/
def buildComplexArgs (cfg : ClipConfig) (withAudio : Bool) : List String :=
  ["-i", "input.mp4"] ++ (if cfg.audioFile then ["-i", "input_audio"] else []) ++
  ["-filter_complex", filterComplexStr cfg withAudio, "-map", "[outv]"] ++
  (if withAudio then ["-map", "[outa]", "-c:a", "aac", "-b:a", "128k"] else []) ++
  ["-c:v", "libx264"] ++ encodeTail

/-- `buildSimpleArgs` (part_001 lines 382–427): direct seek to the segment
start plus an output duration limit, no filter graph. -/
def buildSimpleArgs (cfg : ClipConfig) (withAudio : Bool) : List String :=
  let seg := cfg.segments.headD default
  let s := timeToSeconds seg.start
  let e := timeToSeconds seg.stop
  ["-ss", natStr s, "-i", "input.mp4", "-t", intStr ((e : ℤ) - (s : ℤ))] ++
  (if cfg.audioFile then
    ["-ss", natStr s, "-i", "input_audio", "-t", intStr ((e : ℤ) - (s : ℤ))]
   else []) ++
  (if withAudio then ["-c:v", "libx264", "-c:a", "aac", "-b:a", "128k"]
   else ["-c:v", "libx264", "-an"]) ++
  encodeTail

/-- `canUseSimpleMode` (part_001 lines 374–379). -/
def canUseSimpleMode (cfg : ClipConfig) : Bool :=
  decide (cfg.segments.length = 1) && !(cfg.segments.headD default).fadeIn &&
    !(cfg.segments.headD default).fadeOut && !cfg.globalFadeIn && !cfg.globalFadeOut

/-- The encode-relevant semantics of an argument list produced by either
builder for a single segment: trim window, fades, codec settings, output. -/
structure EncSem where
  usesOverlay : Bool
  trimStart : ℚ
  trimEnd : ℚ
  fadeIn : Bool
  fadeOut : Bool
  videoCodec : String
  audioEnc : Option (String × String)
  tail : List String
  outFile : String
deriving DecidableEq

/-- Semantics of the simple path: `-ss s` seeks to `s`, `-t (e - s)` limits
the output to `s + (e - s)`; the path has no fade capability. -/
def simpleSem (cfg : ClipConfig) (withAudio : Bool) : EncSem :=
  let seg := cfg.segments.headD default
  let s := timeToSeconds seg.start
  let e := timeToSeconds seg.stop
  { usesOverlay := cfg.audioFile
    trimStart := (s : ℚ)
    trimEnd := (s : ℚ) + ((e : ℚ) - (s : ℚ))
    fadeIn := false
    fadeOut := false
    videoCodec := "libx264"
    audioEnc := if withAudio then some ("aac", "128k") else none
    tail := encodeTail
    outFile := "output.mp4" }

/-- Semantics of the general path restricted to its single segment plan:
`trim=start=s:end=e` keeps `[s, e)`, with the plan's fade decisions. -/
def complexSemSingle (cfg : ClipConfig) (withAudio : Bool) : EncSem :=
  let p := (complexPlans cfg).headD default
  { usesOverlay := cfg.audioFile
    trimStart := (p.startSec : ℚ)
    trimEnd := (p.endSec : ℚ)
    fadeIn := p.fadeIn
    fadeOut := p.fadeOut
    videoCodec := "libx264"
    audioEnc := if withAudio then some ("aac", "128k") else none
    tail := encodeTail
    outFile := "output.mp4" }

/-- A sample no-fade single-segment configuration for the concrete rendered
argument lists. -/
def sampleCfg : ClipConfig where
  videoFile := true
  audioFile := false
  segments := [⟨"s1", "0:10", "0:30", false, false⟩]
  globalFadeIn := false
  globalFadeOut := false
  fadeDuration := 2

/-- C5.  The simplified seek path is selected exactly when one segment exists
and no per-segment or global fade applies, and on that case it is
output-equivalent to the filter-graph path: equal trim window (`-ss s` plus
`-t (e-s)` covers exactly `[s,e)`), no fades, identical codec settings and
output file.  The last two conjuncts exhibit the full rendered argument lists
of the two paths on a sample no-fade single-segment configuration, with and
without audio. -/
theorem simple_complex_equivalent :
    (∀ cfg : ClipConfig, canUseSimpleMode cfg = true ↔
      (cfg.segments.length = 1 ∧
        (∀ seg ∈ cfg.segments, seg.fadeIn = false ∧ seg.fadeOut = false) ∧
        cfg.globalFadeIn = false ∧ cfg.globalFadeOut = false)) ∧
    (∀ (cfg : ClipConfig) (wa : Bool), canUseSimpleMode cfg = true →
      simpleSem cfg wa = complexSemSingle cfg wa) ∧
    buildSimpleArgs sampleCfg true =
      ["-ss", "10", "-i", "input.mp4", "-t", "20",
        "-c:v", "libx264", "-c:a", "aac", "-b:a", "128k",
        "-preset", "fast", "-crf", "23", "-pix_fmt", "yuv420p",
        "-movflags", "+faststart", "-y", "output.mp4"] ∧
    buildComplexArgs sampleCfg true =
      ["-i", "input.mp4", "-filter_complex",
        "[0:v]trim=start=10:end=30,setpts=PTS-STARTPTS[v0];[0:a]atrim=start=10:end=30,asetpts=PTS-STARTPTS[a0];[v0][a0]concat=n=1:v=1:a=1[outv][outa]",
        "-map", "[outv]", "-map", "[outa]", "-c:a", "aac", "-b:a", "128k",
        "-c:v", "libx264", "-preset", "fast", "-crf", "23", "-pix_fmt",
        "yuv420p", "-movflags", "+faststart", "-y", "output.mp4"] ∧
    buildSimpleArgs sampleCfg false =
      ["-ss", "10", "-i", "input.mp4", "-t", "20", "-c:v", "libx264", "-an",
        "-preset", "fast", "-crf", "23", "-pix_fmt", "yuv420p",
        "-movflags", "+faststart", "-y", "output.mp4"] ∧
    buildComplexArgs sampleCfg false =
      ["-i", "input.mp4", "-filter_complex",
        "[0:v]trim=start=10:end=30,setpts=PTS-STARTPTS[v0];[v0]concat=n=1:v=1:a=0[outv]",
        "-map", "[outv]", "-c:v", "libx264", "-preset", "fast", "-crf", "23",
        "-pix_fmt", "yuv420p", "-movflags", "+faststart", "-y", "output.mp4"] := by
  refine ⟨?_, ?_, by decide, by decide, by decide, by decide⟩
  · intro cfg
    constructor
    · intro h
      simp only [canUseSimpleMode, Bool.and_eq_true, decide_eq_true_eq,
        Bool.not_eq_true'] at h
      obtain ⟨⟨⟨⟨hlen, hfi⟩, hfo⟩, hgi⟩, hgo⟩ := h
      obtain ⟨a, ha⟩ := List.length_eq_one.mp hlen
      refine ⟨hlen, ?_, hgi, hgo⟩
      intro seg hseg
      rw [ha] at hseg
      simp only [List.mem_singleton] at hseg
      subst hseg
      rw [ha] at hfi hfo
      simp only [List.headD_cons] at hfi hfo
      exact ⟨hfi, hfo⟩
    · rintro ⟨hlen, hflags, hgi, hgo⟩
      obtain ⟨a, ha⟩ := List.length_eq_one.mp hlen
      have hmem : a ∈ cfg.segments := by rw [ha]; simp
      obtain ⟨hfi, hfo⟩ := hflags a hmem
      simp only [canUseSimpleMode, Bool.and_eq_true, decide_eq_true_eq,
        Bool.not_eq_true', ha]
      simp [hlen, hfi, hfo, hgi, hgo, ha]
  · intro cfg wa h
    simp only [canUseSimpleMode, Bool.and_eq_true, decide_eq_true_eq,
      Bool.not_eq_true'] at h
    obtain ⟨⟨⟨⟨hlen, hfi⟩, hfo⟩, hgi⟩, hgo⟩ := h
    obtain ⟨a, ha⟩ := List.length_eq_one.mp hlen
    rw [ha] at hfi hfo
    simp only [List.headD_cons] at hfi hfo
    unfold simpleSem complexSemSingle complexPlans
    rw [ha]
    simp [List.enum, List.enumFrom, segPlan, EncSem.mk.injEq, hfi, hfo,
      hgi, hgo]

/-- C5 (witness for `simple_complex_equivalent`): the semantic equality at
the sample configuration, with audio. -/
theorem simple_complex_equivalent_witness :
    simpleSem sampleCfg true = complexSemSingle sampleCfg true :=
  simple_complex_equivalent.2.1 sampleCfg true (by decide)

/-! ## Theorem for claim C6 -/

/-- Number of (possibly overlapping) occurrences of `pat` in a character
list. -/
def countOcc (pat : List Char) : List Char → Nat
  | [] => 0
  | c :: cs => (if pat.isPrefixOf (c :: cs) then 1 else 0) + countOcc pat cs

/-- A 3-segment configuration with a global fade-in and no per-segment
flags. -/
def cfg3 : ClipConfig where
  videoFile := true
  audioFile := false
  segments := [⟨"a", "0:00", "0:10", false, false⟩,
    ⟨"b", "0:10", "0:20", false, false⟩, ⟨"c", "0:20", "0:30", false, false⟩]
  globalFadeIn := true
  globalFadeOut := false
  fadeDuration := 2

/-- C6.  For every configuration and segment index `i`, the plan the
synthesizer builds for segment `i` has effective fade-in exactly when the
segment's own flag is set or (`i = 0` and the global fade-in is set), and
effective fade-out exactly when the segment's own flag is set or (`i` is the
last index and the global fade-out is set).  Concretely, with a global
fade-in over 3 unflagged segments only index 0 receives a fade-in, and the
rendered filter graph contains exactly one `fade=t=in` video node (and its
audio counterpart) and no fade-out node. -/
theorem effective_fade_flags :
    (∀ (cfg : ClipConfig) (i : Nat) (seg : TimeSegment),
      cfg.segments[i]? = some seg →
      (complexPlans cfg)[i]? = some (segPlan cfg i seg) ∧
      ((segPlan cfg i seg).fadeIn = true ↔
        (seg.fadeIn = true ∨ (i = 0 ∧ cfg.globalFadeIn = true))) ∧
      ((segPlan cfg i seg).fadeOut = true ↔
        (seg.fadeOut = true ∨
          (i = cfg.segments.length - 1 ∧ cfg.globalFadeOut = true)))) ∧
    (complexPlans cfg3).map (fun p => p.fadeIn) = [true, false, false] ∧
    (complexPlans cfg3).map (fun p => p.fadeOut) = [false, false, false] ∧
    countOcc ",fade=t=in".data (filterComplexStr cfg3 true).data = 1 ∧
    countOcc ",afade=t=in".data (filterComplexStr cfg3 true).data = 1 ∧
    countOcc "fade=t=out".data (filterComplexStr cfg3 true).data = 0 := by
  refine ⟨?_, by decide, by decide, ?_, ?_, ?_⟩
  case refine_2 => set_option maxRecDepth 8192 in decide
  case refine_3 => set_option maxRecDepth 8192 in decide
  case refine_4 => set_option maxRecDepth 8192 in decide
  intro cfg i seg hget
  refine ⟨?_, ?_, ?_⟩
  · simp only [complexPlans, List.getElem?_map]
    have henum : cfg.segments.enum[i]? = some (i, seg) := by
      simp [List.getElem?_enum, hget]
    rw [henum]
    rfl
  · simp [segPlan]
  · simp [segPlan]

/-- C6 (witness for `effective_fade_flags`): the flag of the second segment
of `cfg3` (index 1) is false despite the global fade-in. -/
theorem effective_fade_flags_witness :
    (segPlan cfg3 1 ⟨"b", "0:10", "0:20", false, false⟩).fadeIn = true ↔
      ((⟨"b", "0:10", "0:20", false, false⟩ : TimeSegment).fadeIn = true ∨
        (1 = 0 ∧ cfg3.globalFadeIn = true)) :=
  (effective_fade_flags.1 cfg3 1 ⟨"b", "0:10", "0:20", false, false⟩
    (by decide)).2.1

/-! ## Raw Command Executor (src/hooks/useFFmpegRawProcessor.ts,
part_002 lines 922–1220)

`parseCommand` tokenizes the pasted command line (quotes and backslash
escapes respected, leading `ffmpeg` stripped, last non-flag token taken as
the output filename); `validateArgs` statically rejects denylisted protocol
substrings in any (lowercased) token and file-reading filters in
`-filter_complex`/`-vf`/`-af`/`-lavfi` values.  `executeModel` records the
ordered engine operations the `execute` callback would issue, with the
engine's behaviour (exit code, output size, timeout) supplied by an
environment. -/

/-- JavaScript `s.includes(pat)` on character lists. -/
def containsSub (pat : List Char) : List Char → Bool
  | [] => pat.isEmpty
  | c :: cs => pat.isPrefixOf (c :: cs) || containsSub pat cs

/-- `s.toLowerCase()` restricted to ASCII case mapping. -/
def lowerStr (s : String) : String := ⟨s.data.map Char.toLower⟩

/-- Protocols whose appearance anywhere in a token is blocked. -/
def BLOCKED_PROTOCOLS : List String :=
  ["http:", "https:", "ftp:", "rtmp:", "rtsp:", "file:", "pipe:", "data:",
    "tcp:", "udp:", "tls:"]

/-- Filters that can read arbitrary files. -/
def BLOCKED_FILTERS : List String := ["movie", "amovie", "lavfi"]

/-- The rejection message for a blocked protocol. -/
def protoErrMsg (p : String) : String :=
  "Blocked: protocol \"" ++ p ++
    "\" is not allowed. Only local file processing is supported."

/-- The rejection message for a blocked filter. -/
def filterErrMsg (f : String) : String :=
  "Blocked: filter \"" ++ f ++ "\" is not allowed for security reasons."

/-- Protocol scan of one (lowercased) token, in denylist order. -/
def protoCheck (a : String) : Option String :=
  BLOCKED_PROTOCOLS.findSome? fun p =>
    if containsSub p.data (lowerStr a).data then some (protoErrMsg p) else none

/-- Filter scan of a filter-flag value, in denylist order. -/
def filterCheck (v : String) : Option String :=
  BLOCKED_FILTERS.findSome? fun f =>
    if containsSub f.data (lowerStr v).data then some (filterErrMsg f) else none

/-- The four filter-graph-bearing flags (matched on the original case, as in
the source). -/
def isFilterFlag (a : String) : Bool :=
  a = "-filter_complex" || a = "-vf" || a = "-af" || a = "-lavfi"

/-- The filter scan applied to the token following a filter flag, when there
is one (`i + 1 < args.length` in the source). -/
def filterValErr (rest : List String) : Option String :=
  match rest with
  | v :: _ => filterCheck v
  | [] => none

/-- `validateArgs` (part_002 lines 993–1025): first error wins, scanning
tokens left to right, protocols before the filter-value check at each
position. -/
def validateArgs : List String → Option String
  | [] => none
  | a :: rest =>
    match protoCheck a with
    | some e => some e
    | none =>
      if isFilterFlag a then
        match filterValErr rest with
        | some e => some e
        | none => validateArgs rest
      else validateArgs rest

/-- The tokenizer state machine of `parseCommand`: splits on space, newline
and tab outside quotes, toggles single/double quote state, and makes the
character after a backslash literal.  `cur` holds the current token
reversed. -/
def tokLoop : List Char → List String → List Char → Bool → Bool → Bool →
    List String
  | [], acc, cur, _, _, _ =>
    if cur.isEmpty then acc else acc ++ [⟨cur.reverse⟩]
  | c :: cs, acc, cur, inS, inD, esc =>
    if esc then tokLoop cs acc (c :: cur) inS inD false
    else if c = '\\' then tokLoop cs acc cur inS inD true
    else if c = '\'' && !inD then tokLoop cs acc cur (!inS) inD false
    else if c = '"' && !inS then tokLoop cs acc cur inS (!inD) false
    else if (c = ' ' || c = '\n' || c = '\t') && !inS && !inD then
      if cur.isEmpty then tokLoop cs acc [] inS inD false
      else tokLoop cs (acc ++ [⟨cur.reverse⟩]) [] inS inD false
    else tokLoop cs acc (c :: cur) inS inD false

/-- Trim the command and strip a leading `ffmpeg` program name. -/
def stripName (cs : List Char) : List Char :=
  let t := jsTrim cs
  if "ffmpeg".data.isPrefixOf t then jsTrim (t.drop 6) else t

/-- `parseCommand` (part_002 lines 922–975): token vector plus the output
filename (the last token when it does not start with `-`, else
`output.mp4`). -/
def parseCommand (command : String) : List String × String :=
  let args := tokLoop (stripName command.data) [] [] false false false
  let outFile :=
    match args.getLast? with
    | none => "output.mp4"
    | some last => if ['-'].isPrefixOf last.data then "output.mp4" else last
  (args, outFile)

/-- One operation against the engine instance. -/
inductive EngineOp where
  | writeFile (name : String)
  | exec (args : List String)
  | readFile (name : String)
  | deleteFile (name : String)
deriving DecidableEq

/-- Engine behaviour for one raw-command run. -/
structure RawEnv where
  exitCode : Nat
  outputSize : Nat
  timedOut : Bool
deriving DecidableEq

/-- The ordered engine operations issued by a run, and its terminal error if
any. -/
structure RawResult where
  ops : List EngineOp
  error : Option String
deriving DecidableEq

/-- Maximum input file size: 500 MB. -/
def MAX_FILE_SIZE : Nat := 500 * 1024 * 1024

/-- The input upload loop: each file's size is checked before its upload;
an oversized file aborts with the files uploaded so far. -/
def writeInputs : List (String × Nat) → List EngineOp →
    Except (List EngineOp × String) (List EngineOp)
  | [], ops => .ok ops
  | (n, sz) :: rest, ops =>
    if sz > MAX_FILE_SIZE then
      .error (ops, "File \"" ++ n ++ "\" exceeds the 500MB size limit.")
    else writeInputs rest (ops ++ [.writeFile n])

/-- Best-effort cleanup of the uploaded inputs and the output entry. -/
def cleanupOps (files : List (String × Nat)) (outFile : String) :
    List EngineOp :=
  files.map (fun f => EngineOp.deleteFile f.1) ++ [EngineOp.deleteFile outFile]

/-- The `execute` callback (part_002 lines 1113–1218) as an engine-operation
trace: upload inputs (size-checked), parse, statically validate, then — only
if validation passes — execute, read the output, reject tiny output, and
clean up on success. -/
def executeModel (env : RawEnv) (command : String)
    (files : List (String × Nat)) : RawResult :=
  match writeInputs files [] with
  | .error (ops, msg) => ⟨ops, some msg⟩
  | .ok ops =>
    let pc := parseCommand command
    match validateArgs pc.1 with
    | some e => ⟨ops, some e⟩
    | none =>
      let ops2 := ops ++ [EngineOp.exec pc.1]
      if env.timedOut then
        ⟨ops2, some "Processing timed out after 10 minutes. Try a shorter or simpler operation."⟩
      else if env.exitCode ≠ 0 then
        ⟨ops2, some ("FFmpeg exited with code " ++ natStr env.exitCode)⟩
      else
        let ops3 := ops2 ++ [EngineOp.readFile pc.2]
        if env.outputSize < 100 then
          ⟨ops3, some "Output file is empty or corrupted"⟩
        else ⟨ops3 ++ cleanupOps files pc.2, none⟩

/-! ### Lemmas and theorems for claim C4 -/

theorem protoCheck_ne_none (t p : String) (hp : p ∈ BLOCKED_PROTOCOLS)
    (hc : containsSub p.data (lowerStr t).data = true) :
    protoCheck t ≠ none := by
  intro hnone
  have := List.findSome?_eq_none_iff.mp hnone p hp
  rw [if_pos hc] at this
  exact Option.noConfusion this

theorem filterCheck_ne_none (v f : String) (hf : f ∈ BLOCKED_FILTERS)
    (hc : containsSub f.data (lowerStr v).data = true) :
    filterCheck v ≠ none := by
  intro hnone
  have := List.findSome?_eq_none_iff.mp hnone f hf
  rw [if_pos hc] at this
  exact Option.noConfusion this

theorem validateArgs_proto (args : List String) (t p : String)
    (ht : t ∈ args) (hp : p ∈ BLOCKED_PROTOCOLS)
    (hc : containsSub p.data (lowerStr t).data = true) :
    validateArgs args ≠ none := by
  induction args with
  | nil => simp at ht
  | cons a rest ih =>
    rw [validateArgs]
    cases hpc : protoCheck a with
    | some e => simp
    | none =>
      rcases List.mem_cons.mp ht with rfl | hrest
      · exact absurd hpc (protoCheck_ne_none t p hp hc)
      · by_cases hff : isFilterFlag a = true
        · rw [if_pos hff]
          cases hfc : filterValErr rest with
          | some e => simp
          | none => exact ih hrest
        · rw [if_neg hff]
          exact ih hrest

theorem validateArgs_filter (xs ys : List String) (flag v f : String)
    (hflag : isFilterFlag flag = true) (hf : f ∈ BLOCKED_FILTERS)
    (hc : containsSub f.data (lowerStr v).data = true) :
    validateArgs (xs ++ flag :: v :: ys) ≠ none := by
  induction xs with
  | nil =>
    rw [List.nil_append, validateArgs]
    cases hpc : protoCheck flag with
    | some e => simp
    | none =>
      rw [if_pos hflag]
      cases hfc : filterValErr (v :: ys) with
      | some e => simp
      | none =>
        have : filterValErr (v :: ys) = filterCheck v := rfl
        rw [this] at hfc
        exact absurd hfc (filterCheck_ne_none v f hf hc)
  | cons a rest ih =>
    rw [List.cons_append, validateArgs]
    cases hpc : protoCheck a with
    | some e => simp
    | none =>
      by_cases hff : isFilterFlag a = true
      · rw [if_pos hff]
        cases hfc : filterValErr (rest ++ flag :: v :: ys) with
        | some e => simp
        | none => exact ih
      · rw [if_neg hff]
        exact ih

theorem writeInputs_ops (files : List (String × Nat)) (ops0 : List EngineOp)
    (h0 : ∀ op ∈ ops0, ∃ n, op = EngineOp.writeFile n) :
    (∀ ops msg, writeInputs files ops0 = .error (ops, msg) →
      ∀ op ∈ ops, ∃ n, op = EngineOp.writeFile n) ∧
    (∀ ops, writeInputs files ops0 = .ok ops →
      ∀ op ∈ ops, ∃ n, op = EngineOp.writeFile n) := by
  induction files generalizing ops0 with
  | nil =>
    constructor
    · intro ops msg h
      simp [writeInputs] at h
    · intro ops h
      simp only [writeInputs, Except.ok.injEq] at h
      subst h
      exact h0
  | cons fl rest ih =>
    have hext : ∀ op ∈ ops0 ++ [EngineOp.writeFile fl.1],
        ∃ n, op = EngineOp.writeFile n := by
      intro op hop
      rcases List.mem_append.mp hop with hin | hin
      · exact h0 op hin
      · simp only [List.mem_singleton] at hin
        exact ⟨fl.1, hin⟩
    constructor
    · intro ops msg h
      rw [writeInputs] at h
      split at h
      · simp only [Except.error.injEq, Prod.mk.injEq] at h
        rw [← h.1]
        exact h0
      · exact (ih _ hext).1 ops msg h
    · intro ops h
      rw [writeInputs] at h
      split at h
      · exact absurd h (by simp)
      · exact (ih _ hext).2 ops h

theorem writeInputs_ok_of_fit (files : List (String × Nat))
    (hfit : ∀ fl ∈ files, fl.2 ≤ MAX_FILE_SIZE) (ops0 : List EngineOp) :
    ∃ ops, writeInputs files ops0 = .ok ops := by
  induction files generalizing ops0 with
  | nil => exact ⟨ops0, rfl⟩
  | cons fl rest ih =>
    rw [writeInputs]
    have : ¬ fl.2 > MAX_FILE_SIZE := not_lt.mpr (hfit fl (by simp))
    rw [if_neg this]
    exact ih (fun g hg => hfit g (by simp [hg])) _

/-- C4 (counterexample).  The claim says rejection yields an error "naming
the offending token".  For the command token `"http://evil.com/x.mp4"` the
produced error names the matched blocked protocol `http:` but does not
contain the offending token itself. -/
theorem validation_error_omits_token :
    validateArgs ["-i", "http://evil.com/x.mp4", "out.mp4"] =
      some "Blocked: protocol \"http:\" is not allowed. Only local file processing is supported." ∧
    containsSub "http://evil.com/x.mp4".data
      "Blocked: protocol \"http:\" is not allowed. Only local file processing is supported.".data
      = false := by
  constructor <;> decide

/-- C4 (amended).  Static validation rejects, before the engine is ever
executed, every command in which some token contains a denylisted protocol
substring and every `-filter_complex`/`-vf`/`-af`/`-lavfi` flag whose value
mentions a denylisted file-reading filter; the rejection error names the
matched blocked protocol or filter, and the command never reaches an `exec`
operation (when every input file fits the size ceiling, the reported error
is exactly the validation error). -/
theorem raw_validation_rejects :
    (∀ (args : List String) (t p : String), t ∈ args →
      p ∈ BLOCKED_PROTOCOLS → containsSub p.data (lowerStr t).data = true →
      validateArgs args ≠ none) ∧
    (∀ (xs ys : List String) (flag v f : String), isFilterFlag flag = true →
      f ∈ BLOCKED_FILTERS → containsSub f.data (lowerStr v).data = true →
      validateArgs (xs ++ flag :: v :: ys) ≠ none) ∧
    (∀ (env : RawEnv) (cmd : String) (files : List (String × Nat))
        (e : String), validateArgs (parseCommand cmd).1 = some e →
      (∀ a, EngineOp.exec a ∉ (executeModel env cmd files).ops) ∧
      (executeModel env cmd files).error ≠ none ∧
      ((∀ fl ∈ files, fl.2 ≤ MAX_FILE_SIZE) →
        (executeModel env cmd files).error = some e)) ∧
    parseCommand "ffmpeg -i input_video.mp4 out.mp4" =
      (["-i", "input_video.mp4", "out.mp4"], "out.mp4") ∧
    validateArgs ["-i", "http://evil.com/x.mp4", "out.mp4"] =
      some (protoErrMsg "http:") ∧
    validateArgs ["-i", "in.mp4", "-filter_complex", "movie=leak.txt[out]", "out.mp4"] =
      some (filterErrMsg "movie") := by
  refine ⟨validateArgs_proto, validateArgs_filter, ?_, by decide, by decide,
    by decide⟩
  intro env cmd files e hval
  cases hw : writeInputs files [] with
  | error p =>
    obtain ⟨ops, msg⟩ := p
    have hres : executeModel env cmd files = ⟨ops, some msg⟩ := by
      unfold executeModel
      rw [hw]
    have hops := (writeInputs_ops files [] (by simp)).1 ops msg hw
    rw [hres]
    refine ⟨?_, by simp, ?_⟩
    · intro a ha
      obtain ⟨n, hn⟩ := hops (EngineOp.exec a) ha
      exact EngineOp.noConfusion hn
    · intro hfit
      obtain ⟨ops2, hok⟩ := writeInputs_ok_of_fit files hfit []
      rw [hok] at hw
      exact Except.noConfusion hw
  | ok ops =>
    have hres : executeModel env cmd files = ⟨ops, some e⟩ := by
      unfold executeModel
      rw [hw]
      simp only [hval]
    have hops := (writeInputs_ops files [] (by simp)).2 ops hw
    rw [hres]
    refine ⟨?_, by simp, fun _ => rfl⟩
    intro a ha
    obtain ⟨n, hn⟩ := hops (EngineOp.exec a) ha
    exact EngineOp.noConfusion hn

/-- C4 (witness for `raw_validation_rejects`): the no-execution fact at a
concrete blocked command. -/
theorem raw_validation_rejects_witness :
    (∀ a, EngineOp.exec a ∉
      (executeModel ⟨0, 1000, false⟩ "ffmpeg -i http://evil.com/x.mp4 out.mp4"
        [("input_video.mp4", 7)]).ops) ∧
    (executeModel ⟨0, 1000, false⟩ "ffmpeg -i http://evil.com/x.mp4 out.mp4"
      [("input_video.mp4", 7)]).error ≠ none :=
  ⟨(raw_validation_rejects.2.2.1 ⟨0, 1000, false⟩
      "ffmpeg -i http://evil.com/x.mp4 out.mp4" [("input_video.mp4", 7)]
      (protoErrMsg "http:") (by decide)).1,
    (raw_validation_rejects.2.2.1 ⟨0, 1000, false⟩
      "ffmpeg -i http://evil.com/x.mp4 out.mp4" [("input_video.mp4", 7)]
      (protoErrMsg "http:") (by decide)).2.1⟩

/-! ## Resource Loader progress state machine
(src/hooks/useFFmpegProcessor.ts `load`, lines 299–378)

The `load` callback updates `(loadProgress, loadPhase)` at fixed checkpoints
around its awaited operations (fetch core, fetch wasm, fetch worker when
multithreaded, engine load).  `loadTrace` records the sequence of state
updates for a run, with a fault-injection parameter naming the awaited
operation (if any) that throws; any throw lands in the catch block, which
re-enters `(0, idle)`. -/

/-- The `loadPhase` values. -/
inductive LoadPhase where
  | idle
  | core
  | wasm
  | worker
  | ready
deriving DecidableEq

/-- The awaited operations of `load` that can throw. -/
inductive LoadFail where
  | fetchCore
  | fetchWasm
  | fetchWorker
  | engineLoad
deriving DecidableEq

/-- Whether the injected fault is actually reached in a run (a worker fetch
failure cannot occur in a single-threaded load). -/
def didFail (mt : Bool) (fail : Option LoadFail) : Bool :=
  match fail with
  | none => false
  | some LoadFail.fetchCore => true
  | some LoadFail.fetchWasm => true
  | some LoadFail.fetchWorker => mt
  | some LoadFail.engineLoad => true

/-- The `(loadProgress, loadPhase)` updates of one `load` run, in order. -/
def loadTrace (mt : Bool) (fail : Option LoadFail) :
    List (Nat × LoadPhase) :=
  let t0 := [(0, LoadPhase.core), (10, LoadPhase.core)]
  if fail = some LoadFail.fetchCore then t0 ++ [(0, LoadPhase.idle)]
  else
    let t1 := t0 ++ [(40, LoadPhase.wasm)]
    if fail = some LoadFail.fetchWasm then t1 ++ [(0, LoadPhase.idle)]
    else if mt then
      let t2 := t1 ++ [(70, LoadPhase.worker)]
      if fail = some LoadFail.fetchWorker ∨ fail = some LoadFail.engineLoad then
        t2 ++ [(0, LoadPhase.idle)]
      else t2 ++ [(100, LoadPhase.ready)]
    else
      let t2 := t1 ++ [(80, LoadPhase.wasm)]
      if fail = some LoadFail.engineLoad then t2 ++ [(0, LoadPhase.idle)]
      else t2 ++ [(100, LoadPhase.ready)]

/-- Monotonicity (non-decreasing progress) of a state-update sequence. -/
def monotoneProg : List (Nat × LoadPhase) → Bool
  | [] => true
  | [_] => true
  | a :: b :: rest => decide (a.1 ≤ b.1) && monotoneProg (b :: rest)

/-- C8.  In every `load` run: progress `100` is reported exactly together
with the `ready` phase; a successful run reports a monotonically
non-decreasing progress sequence ending at `(100, ready)`; and a run whose
awaited operation fails at any phase ends at `(0, idle)` — never in `ready`,
never reaching `100` — with the progress sequence before that terminal reset
monotonically non-decreasing. -/
theorem load_progress_contract :
    ∀ (mt : Bool) (fail : Option LoadFail),
      ((loadTrace mt fail).all fun st =>
        decide (st.1 = 100) == decide (st.2 = LoadPhase.ready)) = true ∧
      (didFail mt fail = false →
        monotoneProg (loadTrace mt fail) = true ∧
        (loadTrace mt fail).getLast? = some (100, LoadPhase.ready)) ∧
      (didFail mt fail = true →
        (loadTrace mt fail).getLast? = some (0, LoadPhase.idle) ∧
        ((loadTrace mt fail).all fun st =>
          !decide (st.2 = LoadPhase.ready) && !decide (st.1 = 100)) = true ∧
        monotoneProg (loadTrace mt fail).dropLast = true) := by
  intro mt fail
  rcases fail with _ | f
  · cases mt <;> decide
  · cases f <;> cases mt <;> decide

/-- C8 (witness for `load_progress_contract`): a single-threaded run failing
at the binary fetch ends at `(0, idle)`. -/
theorem load_progress_contract_witness :
    (loadTrace false (some LoadFail.fetchWasm)).getLast? =
      some (0, LoadPhase.idle) :=
  ((load_progress_contract false (some LoadFail.fetchWasm)).2.2 (by decide)).1

/-! ## Execution Supervisor (src/unnamed/part_001 `process`, lines 237–620)

The primary clipping job is modelled as a function over an environment
describing the engine's observable behaviour: the duration scraped from the
probe log (`0` when no `Duration:` line matched, in which case the source
skips validation entirely), whether an audio stream was detected, and the
exit code and produced output size of each encode attempt.  The virtual
filesystem is a name-to-size map; `deleteFile` on a missing entry throws
(which the source swallows only for `output.mp4`).  The probe invocation
itself has no filesystem effect and its exit status is ignored by the
source.  The `while (!success)` loop is unrolled to its at most two
iterations: `attemptWithAudio` only ever steps from `true` to `false`, and a
failing audio-less attempt throws. -/

/-- Engine behaviour of one encode attempt: exit status, and the size of the
`output.mp4` entry the attempt leaves behind (if any). -/
structure ExecRes where
  exitCode : Nat
  output : Option Nat
deriving DecidableEq

/-- Environment of one job run. -/
structure ProcEnv where
  probeDuration : ℚ
  hasInputAudio : Bool
  run1 : ExecRes
  run2 : ExecRes
deriving DecidableEq

/-- Terminal outcome of a job. -/
inductive ProcOutcome where
  | success (audioDropped : Bool)
  | failure (msg : String)
deriving DecidableEq

/-- Final virtual filesystem, outcome, and the audio flags of the encode
attempts made, in order. -/
structure ProcResult where
  fs : List (String × Nat)
  outcome : ProcOutcome
  attempts : List Bool
deriving DecidableEq

/-- `writeFile`: map update. -/
def fsSet (fs : List (String × Nat)) (n : String) (sz : Nat) :
    List (String × Nat) :=
  fs.filter (fun e => !(e.1 == n)) ++ [(n, sz)]

/-- Entry lookup. -/
def fsGet (fs : List (String × Nat)) (n : String) : Option Nat :=
  (fs.find? (fun e => e.1 == n)).map Prod.snd

/-- `deleteFile`: `none` models the throw on a missing entry. -/
def fsDel (fs : List (String × Nat)) (n : String) :
    Option (List (String × Nat)) :=
  if (fsGet fs n).isSome then some (fs.filter (fun e => !(e.1 == n))) else none

/-- `try { deleteFile } catch {}`: best-effort deletion. -/
def fsTryDel (fs : List (String × Nat)) (n : String) : List (String × Nat) :=
  (fsDel fs n).getD fs

/-- Filesystem effect of one `exec` encode attempt. -/
def runExec (fs : List (String × Nat)) (r : ExecRes) : List (String × Nat) :=
  match r.output with
  | some sz => fsSet fs "output.mp4" sz
  | none => fs

/-- The segment validation loop (part_001 lines 319–342): runs only when a
positive duration was probed; per segment, start at or beyond the duration
throws, then start not before end throws (end beyond duration only warns).
Messages are abbreviated to their fixed heads. -/
def validateSegs (vd : ℚ) (segs : List TimeSegment) : Option String :=
  if vd > 0 then
    segs.findSome? fun seg =>
      let s := timeToSeconds seg.start
      let e := timeToSeconds seg.stop
      if (s : ℚ) ≥ vd then
        some ("Segment start time (" ++ seg.start ++ ") is beyond video duration")
      else if e ≤ s then
        some ("Invalid segment: start (" ++ seg.start ++ ") must be before end (" ++ seg.stop ++ ")")
      else none
  else none

/-- The second encode attempt (audio forced off).  On success the logged
completion note carries the audio-dropped marker
(`!attemptWithAudio && processAudio` with `attemptWithAudio = false`,
`processAudio = true`). -/
def attempt2 (env : ProcEnv) (fs : List (String × Nat)) :
    List (String × Nat) × ProcOutcome × List Bool :=
  if env.run2.exitCode ≠ 0 then
    (runExec fs env.run2,
      ProcOutcome.failure ("FFmpeg exited with code " ++ natStr env.run2.exitCode),
      [true, false])
  else
    match fsGet (runExec fs env.run2) "output.mp4" with
    | none => (runExec fs env.run2, ProcOutcome.failure "readFile error", [true, false])
    | some sz =>
      if sz < 1000 then
        (runExec fs env.run2, ProcOutcome.failure "Output file is corrupted or empty",
          [true, false])
      else (runExec fs env.run2, ProcOutcome.success true, [true, false])

/-- The encode loop (part_001 lines 521–598).  A first-attempt failure by
non-zero exit or by an implausibly small output retries once with audio off
when the attempt included audio (deleting the partial output, swallowed),
and throws otherwise. -/
def encodePhase (env : ProcEnv) (pa : Bool) (fs : List (String × Nat)) :
    List (String × Nat) × ProcOutcome × List Bool :=
  if env.run1.exitCode ≠ 0 then
    if pa then attempt2 env (fsTryDel (runExec fs env.run1) "output.mp4")
    else (runExec fs env.run1,
      ProcOutcome.failure ("FFmpeg exited with code " ++ natStr env.run1.exitCode),
      [false])
  else
    match fsGet (runExec fs env.run1) "output.mp4" with
    | none => (runExec fs env.run1, ProcOutcome.failure "readFile error", [pa])
    | some sz =>
      if sz < 1000 then
        if pa then attempt2 env (fsTryDel (runExec fs env.run1) "output.mp4")
        else (runExec fs env.run1,
          ProcOutcome.failure "Output file is corrupted or empty", [false])
      else (runExec fs env.run1, ProcOutcome.success false, [pa])

/-- The virtual filesystem holding the job's input entries (audio overlay
written only when supplied, after validation). -/
def inputsFS (cfg : ClipConfig) : List (String × Nat) :=
  if cfg.audioFile then fsSet (fsSet [] "input.mp4" 0) "input_audio" 0
  else fsSet [] "input.mp4" 0

/-- The cleanup block (part_001 lines 600–609), reached only on the success
path: unguarded deletion of `input.mp4` (and `input_audio` when supplied),
then guarded deletion of `output.mp4`.  An unguarded deletion failure would
land in the catch block. -/
def cleanupPhase (cfg : ClipConfig) (fs2 : List (String × Nat)) (d : Bool)
    (atts : List Bool) : ProcResult :=
  match fsDel fs2 "input.mp4" with
  | none => ⟨fs2, ProcOutcome.failure "delete error", atts⟩
  | some fs3 =>
    if cfg.audioFile then
      match fsDel fs3 "input_audio" with
      | none => ⟨fs3, ProcOutcome.failure "delete error", atts⟩
      | some fs4 => ⟨fsTryDel fs4 "output.mp4", ProcOutcome.success d, atts⟩
    else ⟨fsTryDel fs3 "output.mp4", ProcOutcome.success d, atts⟩

/-- The `process` callback as a job-level function: early validation, input
upload, probe-derived validation, audio decision, encode loop with retry,
then cleanup on the success path only (every failure throws past it into the
catch block, which touches no files). -/
def processJob (env : ProcEnv) (cfg : ClipConfig) : ProcResult :=
  if !cfg.videoFile || cfg.segments.isEmpty then
    ⟨[], ProcOutcome.failure "Please add a video file and at least one segment", []⟩
  else
    match validateSegs env.probeDuration cfg.segments with
    | some msg => ⟨fsSet [] "input.mp4" 0, ProcOutcome.failure msg, []⟩
    | none =>
      match encodePhase env (cfg.audioFile || env.hasInputAudio) (inputsFS cfg) with
      | (fs2, ProcOutcome.success d, atts) => cleanupPhase cfg fs2 d atts
      | (fs2, ProcOutcome.failure m, atts) => ⟨fs2, ProcOutcome.failure m, atts⟩

/-! ### Filesystem lemmas -/

theorem find?_filter_ne (fs : List (String × Nat)) (n : String) :
    (fs.filter (fun e => !(e.1 == n))).find? (fun e => e.1 == n) = none := by
  rw [List.find?_eq_none]
  intro x hx
  have := (List.mem_filter.mp hx).2
  simp only [Bool.not_eq_true'] at this
  simp [this]

theorem find?_append_none {α : Type} (p : α → Bool) (l₁ l₂ : List α)
    (h : l₁.find? p = none) : (l₁ ++ l₂).find? p = l₂.find? p := by
  induction l₁ with
  | nil => rfl
  | cons a l ih =>
    rw [List.find?_cons] at h
    rw [List.cons_append, List.find?_cons]
    cases hpa : p a
    · simp only [hpa] at h ⊢
      exact ih h
    · simp only [hpa] at h
      exact Option.noConfusion h

theorem fsGet_fsSet_same (fs : List (String × Nat)) (n : String) (sz : Nat) :
    fsGet (fsSet fs n sz) n = some sz := by
  unfold fsGet fsSet
  rw [find?_append_none _ _ _ (find?_filter_ne fs n)]
  simp [List.find?_cons]

theorem fsGet_inputs_out (cfg : ClipConfig) :
    fsGet (inputsFS cfg) "output.mp4" = none := by
  by_cases h : cfg.audioFile = true <;>
    simp [inputsFS, h, fsGet, fsSet, List.filter, List.find?]

theorem fsGet_none_filter (fs : List (String × Nat)) (n : String)
    (h : fsGet fs n = none) : fs.filter (fun e => !(e.1 == n)) = fs := by
  apply List.filter_eq_self.mpr
  intro a ha
  have hfind : fs.find? (fun e => e.1 == n) = none := by
    unfold fsGet at h
    exact Option.map_eq_none'.mp h
  have := List.find?_eq_none.mp hfind a ha
  simp only [Bool.not_eq_true'] at this ⊢
  revert this
  cases a.1 == n <;> simp

theorem tryDel_runExec (fs : List (String × Nat)) (r : ExecRes)
    (hout : fsGet fs "output.mp4" = none) :
    fsTryDel (runExec fs r) "output.mp4" = fs := by
  cases ho : r.output with
  | none =>
    unfold runExec
    rw [ho]
    unfold fsTryDel fsDel
    rw [hout]
    rfl
  | some sz =>
    unfold runExec
    rw [ho]
    unfold fsTryDel fsDel
    rw [fsGet_fsSet_same]
    unfold fsSet
    simp only [Option.isSome_some, if_true, List.filter_append, Option.getD_some]
    rw [List.filter_filter]
    have h1 : (List.filter (fun e => (!(e.1 == "output.mp4") && !(e.1 == "output.mp4"))) fs)
        = List.filter (fun e => !(e.1 == "output.mp4")) fs := by
      apply List.filter_congr
      intro a _
      cases a.1 == "output.mp4" <;> rfl
    rw [h1, fsGet_none_filter fs _ hout]
    simp

theorem attempt2_atts (env : ProcEnv) (fs : List (String × Nat)) :
    (attempt2 env fs).2.2 = [true, false] := by
  unfold attempt2
  by_cases h : env.run2.exitCode ≠ 0
  · rw [if_pos h]
  · rw [if_neg h]
    cases hg : fsGet (runExec fs env.run2) "output.mp4" with
    | none => simp [hg]
    | some sz =>
      simp only [hg]
      by_cases hsz : sz < 1000
      · rw [if_pos hsz]
      · rw [if_neg hsz]

theorem attempt2_none (env : ProcEnv) (fs : List (String × Nat))
    (hout : fsGet fs "output.mp4" = none) (hno : env.run2.output = none) :
    (attempt2 env fs).1 = fs ∧ ∃ m, (attempt2 env fs).2.1 = ProcOutcome.failure m := by
  have hre : runExec fs env.run2 = fs := by
    unfold runExec
    rw [hno]
  unfold attempt2
  rw [hre]
  by_cases h : env.run2.exitCode ≠ 0
  · rw [if_pos h]
    exact ⟨rfl, _, rfl⟩
  · rw [if_neg h, hout]
    exact ⟨rfl, _, rfl⟩

theorem attempt2_fail (env : ProcEnv) (fs : List (String × Nat))
    (_hout : fsGet fs "output.mp4" = none)
    (hfail : env.run2.exitCode ≠ 0 ∨ ∃ sz, env.run2.output = some sz ∧ sz < 1000) :
    ∃ m, (attempt2 env fs).2.1 = ProcOutcome.failure m := by
  unfold attempt2
  by_cases h : env.run2.exitCode ≠ 0
  · rw [if_pos h]
    exact ⟨_, rfl⟩
  · rw [if_neg h]
    rcases hfail with h1 | ⟨sz, ho, hsz⟩
    · exact absurd h1 h
    · have hre : runExec fs env.run2 = fsSet fs "output.mp4" sz := by
        unfold runExec
        rw [ho]
      simp only [hre, fsGet_fsSet_same, if_pos hsz]
      exact ⟨_, rfl⟩

theorem attempt2_success (env : ProcEnv) (fs : List (String × Nat))
    (sz : Nat) (ho : env.run2.output = some sz) (h0 : env.run2.exitCode = 0)
    (hsz : 1000 ≤ sz) :
    attempt2 env fs = (fsSet fs "output.mp4" sz, ProcOutcome.success true, [true, false]) := by
  have hre : runExec fs env.run2 = fsSet fs "output.mp4" sz := by
    unfold runExec
    rw [ho]
  unfold attempt2
  have h1 : ¬ env.run2.exitCode ≠ 0 := by simp [h0]
  rw [if_neg h1]
  simp only [hre, fsGet_fsSet_same, if_neg (not_lt.mpr hsz)]

theorem attempt2_success_shape (env : ProcEnv) (fs : List (String × Nat))
    (hout : fsGet fs "output.mp4" = none)
    (fs2 : List (String × Nat)) (d : Bool) (atts : List Bool)
    (h : attempt2 env fs = (fs2, ProcOutcome.success d, atts)) :
    ∃ sz, 1000 ≤ sz ∧ fs2 = fsSet fs "output.mp4" sz := by
  unfold attempt2 at h
  by_cases h2 : env.run2.exitCode ≠ 0
  · rw [if_pos h2] at h
    simp at h
  · rw [if_neg h2] at h
    cases ho : env.run2.output with
    | none =>
      have hre : runExec fs env.run2 = fs := by
        unfold runExec
        rw [ho]
      rw [hre, hout] at h
      simp at h
    | some sz =>
      have hre : runExec fs env.run2 = fsSet fs "output.mp4" sz := by
        unfold runExec
        rw [ho]
      simp only [hre, fsGet_fsSet_same] at h
      by_cases hsz : sz < 1000
      · rw [if_pos hsz] at h
        simp at h
      · rw [if_neg hsz] at h
        simp only [Prod.mk.injEq] at h
        exact ⟨sz, not_lt.mp hsz, h.1.symm⟩

theorem encodePhase_retry (env : ProcEnv) (fs : List (String × Nat))
    (hout : fsGet fs "output.mp4" = none)
    (hfail : env.run1.exitCode ≠ 0 ∨ ∃ sz, env.run1.output = some sz ∧ sz < 1000) :
    encodePhase env true fs = attempt2 env fs := by
  unfold encodePhase
  have htd := tryDel_runExec fs env.run1 hout
  by_cases h1 : env.run1.exitCode ≠ 0
  · rw [if_pos h1, htd]
    simp
  · rw [if_neg h1, htd]
    rcases hfail with hx | ⟨sz, ho, hsz⟩
    · exact absurd hx h1
    · have hre : runExec fs env.run1 = fsSet fs "output.mp4" sz := by
        unfold runExec
        rw [ho]
      simp only [hre, fsGet_fsSet_same, if_pos hsz]
      simp

theorem encodePhase_success (env : ProcEnv) (pa : Bool)
    (fs : List (String × Nat)) (hout : fsGet fs "output.mp4" = none)
    (fs2 : List (String × Nat)) (d : Bool) (atts : List Bool)
    (h : encodePhase env pa fs = (fs2, ProcOutcome.success d, atts)) :
    ∃ sz, 1000 ≤ sz ∧ fs2 = fsSet fs "output.mp4" sz := by
  unfold encodePhase at h
  have htd := tryDel_runExec fs env.run1 hout
  by_cases h1 : env.run1.exitCode ≠ 0
  · rw [if_pos h1, htd] at h
    cases hpa : pa with
    | true =>
      rw [hpa] at h
      simp only [if_true] at h
      exact attempt2_success_shape env fs hout fs2 d atts h
    | false =>
      rw [hpa] at h
      simp at h
  · rw [if_neg h1, htd] at h
    cases ho : env.run1.output with
    | none =>
      have hre : runExec fs env.run1 = fs := by
        unfold runExec
        rw [ho]
      simp only [hre, hout] at h
      simp at h
    | some sz =>
      have hre : runExec fs env.run1 = fsSet fs "output.mp4" sz := by
        unfold runExec
        rw [ho]
      simp only [hre, fsGet_fsSet_same] at h
      by_cases hsz : sz < 1000
      · rw [if_pos hsz] at h
        cases hpa : pa with
        | true =>
          rw [hpa] at h
          simp only [if_true] at h
          exact attempt2_success_shape env fs hout fs2 d atts h
        | false =>
          rw [hpa] at h
          simp at h
      · rw [if_neg hsz] at h
        simp only [Prod.mk.injEq] at h
        exact ⟨sz, not_lt.mp hsz, h.1.symm⟩

theorem cleanupPhase_atts (cfg : ClipConfig) (fs2 : List (String × Nat))
    (d : Bool) (atts : List Bool) :
    (cleanupPhase cfg fs2 d atts).attempts = atts := by
  unfold cleanupPhase
  cases fsDel fs2 "input.mp4" with
  | none => rfl
  | some fs3 =>
    cases hA : cfg.audioFile with
    | true =>
      simp only [hA, if_true]
      first
      | rfl
      | cases fsDel fs3 "input_audio" <;> rfl
    | false =>
      simp [hA]

theorem cleanup_computes (cfg : ClipConfig) (sz : Nat) (d : Bool)
    (atts : List Bool) :
    cleanupPhase cfg (fsSet (inputsFS cfg) "output.mp4" sz) d atts =
      ⟨[], ProcOutcome.success d, atts⟩ := by
  by_cases ha : cfg.audioFile = true <;>
    simp [cleanupPhase, inputsFS, ha, fsSet, fsDel, fsGet, fsTryDel,
      List.filter, List.find?]

theorem processJob_run (env : ProcEnv) (cfg : ClipConfig)
    (hv : cfg.videoFile = true) (hne : cfg.segments.isEmpty = false)
    (hval : validateSegs env.probeDuration cfg.segments = none) :
    processJob env cfg =
      match encodePhase env (cfg.audioFile || env.hasInputAudio) (inputsFS cfg) with
      | (fs2, ProcOutcome.success d, atts) => cleanupPhase cfg fs2 d atts
      | (fs2, ProcOutcome.failure m, atts) => ⟨fs2, ProcOutcome.failure m, atts⟩ := by
  unfold processJob
  simp [hv, hne, hval]

theorem processJob_success_fs (env : ProcEnv) (cfg : ClipConfig) :
    (∃ m, (processJob env cfg).outcome = ProcOutcome.failure m) ∨
    (processJob env cfg).fs = [] := by
  by_cases hguard : (!cfg.videoFile || cfg.segments.isEmpty) = true
  · left
    unfold processJob
    rw [if_pos hguard]
    exact ⟨_, rfl⟩
  · have hv : cfg.videoFile = true := by
      revert hguard
      cases cfg.videoFile <;> simp
    have hne : cfg.segments.isEmpty = false := by
      revert hguard
      cases cfg.segments.isEmpty <;> simp [hv]
    cases hval : validateSegs env.probeDuration cfg.segments with
    | some msg =>
      left
      unfold processJob
      rw [if_neg hguard]
      simp only [hval]
      exact ⟨_, rfl⟩
    | none =>
      rw [processJob_run env cfg hv hne hval]
      rcases hE : encodePhase env (cfg.audioFile || env.hasInputAudio)
        (inputsFS cfg) with ⟨fs2, out2, atts2⟩
      cases out2 with
      | failure m => exact Or.inl ⟨_, rfl⟩
      | success d =>
        obtain ⟨sz, hsz, rfl⟩ :=
          encodePhase_success env (cfg.audioFile || env.hasInputAudio)
            (inputsFS cfg) (fsGet_inputs_out cfg) fs2 d atts2 hE
        right
        simp only [cleanup_computes]

/-- The environment of a video-only job whose single encode attempt exits
with code 1 and writes nothing; no duration line was parsed. -/
def envFail : ProcEnv := ⟨0, false, ⟨1, none⟩, ⟨0, none⟩⟩

/-- The environment of a job with input audio, whose audio attempt exits 1
leaving a partial output and whose audio-less retry exits 1 writing
nothing. -/
def envFail2 : ProcEnv := ⟨0, true, ⟨1, some 5000⟩, ⟨1, none⟩⟩

/-- The environment of a job with input audio whose audio attempt fails by
exit 1 and whose audio-less retry succeeds with a plausible output. -/
def envRetryOk : ProcEnv := ⟨0, true, ⟨1, some 5000⟩, ⟨0, some 4000⟩⟩

/-- A plain single-segment configuration, video only. -/
def cfgPlain : ClipConfig := ⟨true, false, [⟨"a", "0:10", "0:20", false, false⟩],
  false, false, 2⟩

/-- C1 (counterexample).  The claim asserts the job's virtual-filesystem
entries are removed on every terminal-failure path.  On a terminal encode
failure the catch block is reached and the cleanup block (which sits inside
the `try`, after the loop) never runs: `input.mp4` is still present. -/
theorem cleanup_skipped_on_failure :
    (processJob envFail cfgPlain).outcome =
      ProcOutcome.failure "FFmpeg exited with code 1" ∧
    (processJob envFail cfgPlain).fs.map Prod.fst = ["input.mp4"] := by
  constructor <;> decide

/-- C1 (amended).  On the success path all of the job's virtual-filesystem
entries are removed (the final filesystem is empty); on a terminal-failure
path the cleanup block is skipped and the input entry remains — shown
concretely for a job whose audio attempt and audio-less retry both fail
(the partial output deleted before the retry is the only entry removed). -/
theorem cleanup_on_success :
    (∀ (env : ProcEnv) (cfg : ClipConfig) (d : Bool),
      (processJob env cfg).outcome = ProcOutcome.success d →
      (processJob env cfg).fs = []) ∧
    (processJob envFail2 cfgPlain).fs.map Prod.fst = ["input.mp4"] ∧
    (processJob envFail2 cfgPlain).outcome =
      ProcOutcome.failure "FFmpeg exited with code 1" ∧
    (processJob envFail2 cfgPlain).attempts = [true, false] := by
  refine ⟨?_, by decide, by decide, by decide⟩
  intro env cfg d h
  rcases processJob_success_fs env cfg with ⟨m, hm⟩ | hfs
  · rw [h] at hm
    exact ProcOutcome.noConfusion hm
  · exact hfs

/-- C1 (witness for `cleanup_on_success`): the success-path cleanup at a
concrete successful job. -/
theorem cleanup_on_success_witness :
    (processJob envRetryOk cfgPlain).fs = [] :=
  cleanup_on_success.1 envRetryOk cfgPlain true (by decide)

/-- C2.  For every job that reaches the encode phase with audio included
(overlay supplied or input audio detected), if the audio attempt fails by
non-zero exit or an implausibly small output, then: exactly one retry is
made, with audio forced off; the partial output deleted before the retry
does not survive (if the retry writes nothing, no `output.mp4` entry
remains); if the audio-less attempt also fails by either criterion the job
fails terminally with no further retry; and if the retry succeeds the
outcome is success carrying the audio-dropped note. -/
theorem audio_retry_policy :
    ∀ (env : ProcEnv) (cfg : ClipConfig),
      cfg.videoFile = true → cfg.segments.isEmpty = false →
      validateSegs env.probeDuration cfg.segments = none →
      (cfg.audioFile || env.hasInputAudio) = true →
      (env.run1.exitCode ≠ 0 ∨ ∃ sz, env.run1.output = some sz ∧ sz < 1000) →
      (processJob env cfg).attempts = [true, false] ∧
      (env.run2.output = none →
        "output.mp4" ∉ (processJob env cfg).fs.map Prod.fst) ∧
      ((env.run2.exitCode ≠ 0 ∨ ∃ sz, env.run2.output = some sz ∧ sz < 1000) →
        ∃ m, (processJob env cfg).outcome = ProcOutcome.failure m) ∧
      (∀ sz, env.run2.exitCode = 0 → env.run2.output = some sz → 1000 ≤ sz →
        (processJob env cfg).outcome = ProcOutcome.success true) := by
  intro env cfg hv hne hval hpa hfail1
  have hout := fsGet_inputs_out cfg
  have hrun := processJob_run env cfg hv hne hval
  rw [hpa, encodePhase_retry env (inputsFS cfg) hout hfail1] at hrun
  rcases hA : attempt2 env (inputsFS cfg) with ⟨fs2, out2, atts2⟩
  rw [hA] at hrun
  have hatts : atts2 = [true, false] := by
    have h := attempt2_atts env (inputsFS cfg)
    rw [hA] at h
    exact h
  refine ⟨?_, ?_, ?_, ?_⟩
  · rw [hrun]
    cases out2 with
    | success d => simp only [cleanupPhase_atts, hatts]
    | failure m => simp only [hatts]
  · intro hno
    obtain ⟨hfs, m, hm⟩ := attempt2_none env (inputsFS cfg) hout hno
    rw [hA] at hfs hm
    have hfs' : fs2 = inputsFS cfg := hfs
    have hm' : out2 = ProcOutcome.failure m := hm
    subst hm'
    subst hfs'
    rw [hrun]
    by_cases ha : cfg.audioFile = true <;>
      simp [inputsFS, ha, fsSet, List.filter]
  · intro hfail2
    obtain ⟨m, hm⟩ := attempt2_fail env (inputsFS cfg) hout hfail2
    rw [hA] at hm
    have hm' : out2 = ProcOutcome.failure m := hm
    subst hm'
    rw [hrun]
    exact ⟨m, rfl⟩
  · intro sz h0 ho hsz
    have hs := attempt2_success env (inputsFS cfg) sz ho h0 hsz
    rw [hA] at hs
    simp only [Prod.mk.injEq] at hs
    obtain ⟨h1, h2, h3⟩ := hs
    subst h1
    subst h2
    rw [hrun]
    simp only [cleanup_computes]

/-- C2 (witness for `audio_retry_policy`): a job whose audio attempt exits 1
and whose audio-less retry succeeds ends in success with the audio-dropped
note. -/
theorem audio_retry_policy_witness :
    (processJob envRetryOk cfgPlain).attempts = [true, false] ∧
    (processJob envRetryOk cfgPlain).outcome = ProcOutcome.success true :=
  ⟨(audio_retry_policy envRetryOk cfgPlain (by decide) (by decide) (by decide)
      (by decide) (Or.inl (by decide))).1,
    (audio_retry_policy envRetryOk cfgPlain (by decide) (by decide) (by decide)
      (by decide) (Or.inl (by decide))).2.2.2 4000 (by decide) (by decide)
      (by decide)⟩

end ClipStream
